import Mathlib

/-!
Shallow embedding of the khai-chess weekly puzzle app.

The repository is a single-page app: a puzzle is picked per calendar week by
a string hash, the player replays a fixed 5-move solution line against
scripted opponent replies, mistakes are counted, a timer starts on the first
legal attempt, and a completed run can be submitted to a leaderboard.

Chess legality and board state are delegated to an external rules engine
(chess.js), which the repository consumes but does not implement.  We model
that adapter abstractly: a board type `B` together with a move function
returning `none` for an illegal move and the applied move (with its reported
source and destination squares and the successor board) otherwise.  The
source's `game.undo()` immediately after a successful `game.move(...)` is
modelled, per the adapter contract, as restoring the pre-move board value.

All other definitions are translated directly from `src/src/App.tsx` /
`src/unnamed/part_000` (the `puzzles.ts` catalog and the full `App.tsx`).
-/

namespace KhaiChess

/-- Puzzle definition, from `puzzles.ts`: id, title, FEN start position, the
full line in UCI (player moves at indices 0,2,4,6,8; opponent replies at
1,3,5,7) and an optional hint text. -/
structure WeeklyPuzzle where
  id : String
  title : String
  fen : String
  solution : List String
  hint : Option String
  deriving DecidableEq

/-- The single catalog entry from `puzzles.ts`. -/
def firstPuzzle : WeeklyPuzzle :=
  { id := "wk-midgame-italian-5",
    title := "Weekly Midgame Puzzle (5 moves)",
    fen := "r1bqk2r/pppp1ppp/2n2n2/2b5/2BpP3/2P2N2/PP3PPP/RNBQK2R w KQkq - 0 6",
    solution := ["c3d4", "c5b4", "b1c3", "f6e4", "e1g1", "e4c3", "b2c3", "b4a5", "f1e1"],
    hint := some "First: fix the center pawn. Then develop and castle. Watch the knight jumps." }

/-- The static catalog `PUZZLES` from `puzzles.ts`. -/
def PUZZLES : List WeeklyPuzzle := [firstPuzzle]

/-- `REQUIRED_PLAYER_MOVES` from `App.tsx`. -/
def REQUIRED_PLAYER_MOVES : Nat := 5

/-- Result of `parseUci`: source square, destination square, optional
promotion letter. -/
structure UciMove where
  fromSq : String
  toSq : String
  promotion : Option String
  deriving DecidableEq

/-- JS `String.prototype.toLowerCase()` on the square strings involved
(basic latin): lower-case every character. -/
def lowerStr (s : String) : String :=
  String.mk (s.data.map Char.toLower)

/-- `parseUci` from `App.tsx`: `from = uci.slice(0,2)`, `to = uci.slice(2,4)`,
`promotion = uci.length >= 5 ? uci[4] : undefined`.  JS string slices are
modelled as take/drop on the character list. -/
def parseUci (uci : String) : UciMove :=
  { fromSq := String.mk (uci.data.take 2),
    toSq := String.mk ((uci.data.drop 2).take 2),
    promotion := if uci.length ≥ 5 then some (String.mk ((uci.data.drop 4).take 1)) else none }

/-- The polynomial string hash inside `pickWeeklyPuzzle`:
`hash = (hash * 31 + charCode) >>> 0` iterated over the characters,
starting at 0.  `>>> 0` is an unsigned 32-bit wrap, i.e. `% 2^32`. -/
def hashString (s : String) : Nat :=
  s.data.foldl (fun h c => (h * 31 + c.toNat) % 4294967296) 0

/-- `pickWeeklyPuzzle` from `App.tsx`: index the catalog by
`hash(weekKey) % PUZZLES.length`. -/
def pickWeeklyPuzzle (weekKey : String) : WeeklyPuzzle :=
  PUZZLES.get ⟨hashString weekKey % PUZZLES.length, Nat.mod_lt _ (by decide)⟩

/-- JS `String.prototype.trim()`: drop whitespace from both ends, modelled
on the character list. -/
def trimStr (s : String) : String :=
  String.mk (((s.data.dropWhile Char.isWhitespace).reverse.dropWhile Char.isWhitespace).reverse)

/-- `clampName` from `App.tsx`: `s.trim().slice(0, 24)`. -/
def clampName (s : String) : String :=
  String.mk ((trimStr s).data.take 24)

/-- The applied move reported by the external rules engine on a successful
`game.move({from, to, promotion})`: the reported `from`/`to` squares (the
source reads `attempted.from + attempted.to`) and the successor board. -/
structure Attempted (B : Type) where
  fromSq : String
  toSq : String
  newBoard : B
  deriving DecidableEq

/-- The external rules adapter: given a board, a source square, a destination
square and a promotion piece, return `none` when the move is illegal and the
applied move otherwise. -/
def Engine (B : Type) : Type :=
  B → String → String → String → Option (Attempted B)

/-- The session state owned by the running app: the board held in the
`game` React state, the selected square, `playerMoveIndex`, `mistakes`,
`done`, `hintStage`, the `startRef` timer-start timestamp and `timeMs`. -/
structure SessionState (B : Type) where
  game : B
  selected : Option (Nat × Nat)
  playerMoveIndex : Nat
  mistakes : Nat
  done : Bool
  hintStage : Nat
  startRef : Option Nat
  timeMs : Nat
  deriving DecidableEq

/-- The initial session state: board freshly loaded from the puzzle's FEN
(represented by `b`), nothing selected, slot 0, no mistakes, not done, hint
stage 0, timer unset, zero elapsed time. -/
def initialState {B : Type} (_p : WeeklyPuzzle) (b : B) : SessionState B :=
  { game := b, selected := none, playerMoveIndex := 0, mistakes := 0,
    done := false, hintStage := 0, startRef := none, timeMs := 0 }

/-- `restartPuzzle` from `App.tsx`: reload the board from the puzzle FEN,
clear the selection, reset slot, mistakes, done flag and hint stage, clear
the timer reference and zero the elapsed time. -/
def restartPuzzle {B : Type} (_p : WeeklyPuzzle) (b : B) : SessionState B :=
  { game := b, selected := none, playerMoveIndex := 0, mistakes := 0,
    done := false, hintStage := 0, startRef := none, timeMs := 0 }

/-- `startTimerIfNeeded` from `App.tsx`:
`if (!startRef.current) startRef.current = Date.now()`.  A JS falsy check:
both `null` and `0` count as unset. -/
def startTimerIfNeeded (now : Nat) : Option Nat → Option Nat
  | none => some now
  | some t => if t = 0 then some now else some t

/-- `nextPlayerUci` from `App.tsx`: `puzzle.solution[playerMoveIndex * 2] || ""`. -/
def nextPlayerUci (p : WeeklyPuzzle) (playerMoveIndex : Nat) : String :=
  p.solution.getD (playerMoveIndex * 2) ""

/-- `applyOpponentMoveIfExists` from `App.tsx`: the opponent reply after
player move number `nextPlayerIdx` sits at solution index
`nextPlayerIdx * 2 - 1`; when present (and non-empty, a JS falsy check) it
is applied with promotion defaulting to queen, without any validation
against an expected line.  The result of `g.move` is ignored, so an illegal
scripted reply leaves the board unchanged. -/
def applyOpponentMoveIfExists {B : Type} (E : Engine B) (p : WeeklyPuzzle)
    (nextPlayerIdx : Nat) (g : B) : B :=
  let oppIdx := nextPlayerIdx * 2 - 1
  let uci := p.solution.getD oppIdx ""
  if uci = "" then g
  else
    let m := parseUci uci
    match E g m.fromSq m.toSq (m.promotion.getD "q") with
    | none => g
    | some att => att.newBoard

/-- `tryPlayerMove` from `App.tsx`.  When the puzzle is done, do nothing.
Otherwise attempt the move through the rules engine (promotion "q"); an
illegal move changes nothing.  On a legal attempt the timer starts if not
yet started, the applied move's lower-cased `from + to` string is compared
with the expected solution entry: a mismatch reverts the board (undo) while
incrementing `mistakes` and resetting the hint stage; a match advances the
slot, applies the scripted opponent reply to the new board, clears the
selection and hint stage, and marks the session done once the slot reaches
`REQUIRED_PLAYER_MOVES`. -/
def tryPlayerMove {B : Type} (E : Engine B) (p : WeeklyPuzzle) (now : Nat)
    (s : SessionState B) (f t : String) : SessionState B :=
  if s.done then s
  else
    match E s.game f t "q" with
    | none => s
    | some att =>
      let s1 : SessionState B := { s with startRef := startTimerIfNeeded now s.startRef }
      let uci := lowerStr (att.fromSq ++ att.toSq)
      let expected := lowerStr (nextPlayerUci p s1.playerMoveIndex)
      if uci = expected then
        let nextIdx := s1.playerMoveIndex + 1
        let g := applyOpponentMoveIfExists E p nextIdx att.newBoard
        { s1 with game := g, selected := none, hintStage := 0,
                  playerMoveIndex := nextIdx,
                  done := if nextIdx ≥ REQUIRED_PLAYER_MOVES then true else s1.done }
      else
        { s1 with mistakes := s1.mistakes + 1, hintStage := 0 }

/-- The hint-squares computation from `App.tsx`: `null` when the puzzle is
done or the next expected UCI string is absent or shorter than 4
characters, otherwise the parsed from/to squares of the next player move. -/
def hintSquares {B : Type} (p : WeeklyPuzzle) (s : SessionState B) :
    Option (String × String) :=
  if s.done then none
  else
    let u := nextPlayerUci p s.playerMoveIndex
    if u = "" then none
    else if u.length < 4 then none
    else some ((parseUci u).fromSq, (parseUci u).toSq)

/-- The hint button's stage update from `App.tsx`:
`s === 0 ? 1 : s === 1 ? 2 : 0`. -/
def hintCycle (s : Nat) : Nat :=
  if s = 0 then 1 else if s = 1 then 2 else 0

/-- A click on the hint button: the button is disabled when the puzzle is
done or no hint squares exist, otherwise the stage cycles. -/
def requestHint {B : Type} (p : WeeklyPuzzle) (s : SessionState B) : SessionState B :=
  if s.done then s
  else if (hintSquares p s).isNone then s
  else { s with hintStage := hintCycle s.hintStage }

/-- The row inserted into the `leaderboard` table by `submitScore`. -/
structure InsertRow where
  week_key : String
  name : String
  time_ms : Nat
  mistakes : Nat
  deriving DecidableEq

/-- `submitScore` from `App.tsx`: clamp the name; if the puzzle is not done
or the clamped name is empty, return without writing; otherwise insert one
row with the week key, the clamped name, the elapsed milliseconds and the
mistake count.  The performed write (if any) is the returned row. -/
def submitScore {B : Type} (weekKey : String) (name : String)
    (s : SessionState B) : Option InsertRow :=
  let finalName := clampName name
  if s.done = false then none
  else if finalName = "" then none
  else some { week_key := weekKey, name := finalName,
              time_ms := s.timeMs, mistakes := s.mistakes }

/-- Source square of the expected player move at slot `idx`:
`parseUci(solution[idx*2]).from`. -/
def expectedFrom (p : WeeklyPuzzle) (idx : Nat) : String :=
  (parseUci (nextPlayerUci p idx)).fromSq

/-- Destination square of the expected player move at slot `idx`. -/
def expectedTo (p : WeeklyPuzzle) (idx : Nat) : String :=
  (parseUci (nextPlayerUci p idx)).toSq

/-- Replaying the solution: starting from the initial session state, step
`i` plays the from/to squares of solution entry `2*i` (the player
half-moves `solution[0], solution[2], ...` in order). -/
def replayMoves {B : Type} (E : Engine B) (p : WeeklyPuzzle) (now : Nat)
    (b : B) : Nat → SessionState B
  | 0 => initialState p b
  | i + 1 =>
      tryPlayerMove E p now (replayMoves E p now b i) (expectedFrom p i) (expectedTo p i)

/-- Session states reachable from the initial state by move attempts, hint
requests and restarts. -/
inductive Reachable {B : Type} (E : Engine B) (p : WeeklyPuzzle) (b : B) :
    SessionState B → Prop
  | init : Reachable E p b (initialState p b)
  | move (s : SessionState B) (now : Nat) (f t : String) :
      Reachable E p b s → Reachable E p b (tryPlayerMove E p now s f t)
  | hint (s : SessionState B) :
      Reachable E p b s → Reachable E p b (requestHint p s)
  | restart (s : SessionState B) :
      Reachable E p b s → Reachable E p b (restartPuzzle p b)

/-- A concrete instance of the rules adapter used to witness theorems: every
move is legal, the reported squares are the requested ones, and the board is
a log of the moves played. -/
def logEngine : Engine (List String) :=
  fun g f t pr => some { fromSq := f, toSq := t, newBoard := g ++ [f ++ t ++ pr] }

/-- A concrete adapter instance on which every move is illegal. -/
def noneEngine : Engine (List String) :=
  fun _ _ _ _ => none

/-- The session invariant maintained by every operation: while the puzzle is
not done the slot is one of 0..4, and the hint stage is one of 0..2. -/
def SessionInv {B : Type} (s : SessionState B) : Prop :=
  (s.done = false → s.playerMoveIndex < REQUIRED_PLAYER_MOVES) ∧ s.hintStage ≤ 2

/-! ## Branch lemmas for `tryPlayerMove` -/

lemma tryPlayerMove_of_done {B : Type} (E : Engine B) (p : WeeklyPuzzle) (now : Nat)
    (s : SessionState B) (f t : String) (hd : s.done = true) :
    tryPlayerMove E p now s f t = s := by
  unfold tryPlayerMove
  simp [hd]

lemma tryPlayerMove_of_illegal {B : Type} (E : Engine B) (p : WeeklyPuzzle) (now : Nat)
    (s : SessionState B) (f t : String) (hE : E s.game f t "q" = none) :
    tryPlayerMove E p now s f t = s := by
  unfold tryPlayerMove
  rw [hE]
  split <;> rfl

lemma tryPlayerMove_wrong {B : Type} (E : Engine B) (p : WeeklyPuzzle) (now : Nat)
    (s : SessionState B) (f t : String) (att : Attempted B)
    (hd : s.done = false)
    (hE : E s.game f t "q" = some att)
    (hne : lowerStr (att.fromSq ++ att.toSq) ≠ lowerStr (nextPlayerUci p s.playerMoveIndex)) :
    tryPlayerMove E p now s f t =
      { s with startRef := startTimerIfNeeded now s.startRef,
               mistakes := s.mistakes + 1, hintStage := 0 } := by
  unfold tryPlayerMove
  rw [hE, hd]
  simp [hne]

lemma tryPlayerMove_right {B : Type} (E : Engine B) (p : WeeklyPuzzle) (now : Nat)
    (s : SessionState B) (f t : String) (att : Attempted B)
    (hd : s.done = false)
    (hE : E s.game f t "q" = some att)
    (heq : lowerStr (att.fromSq ++ att.toSq) = lowerStr (nextPlayerUci p s.playerMoveIndex)) :
    tryPlayerMove E p now s f t =
      { s with game := applyOpponentMoveIfExists E p (s.playerMoveIndex + 1) att.newBoard,
               selected := none, hintStage := 0,
               playerMoveIndex := s.playerMoveIndex + 1,
               done := decide (s.playerMoveIndex + 1 ≥ REQUIRED_PLAYER_MOVES),
               startRef := startTimerIfNeeded now s.startRef } := by
  unfold tryPlayerMove
  rw [hE, hd]
  by_cases h5 : s.playerMoveIndex + 1 ≥ REQUIRED_PLAYER_MOVES <;> simp [heq, h5]

/-! ## Claim theorems -/

/-- C4: a move attempt that is illegal in the current position (the rules
engine returns null) leaves the whole session state unchanged: board
encoding, slot, mistake count, completion flag, hint stage and timer-start
timestamp are all the same, and no error is surfaced. -/
theorem C4_illegal_attempt_noop {B : Type} (E : Engine B) (p : WeeklyPuzzle) (now : Nat)
    (s : SessionState B) (f t : String)
    (hE : E s.game f t "q" = none) :
    tryPlayerMove E p now s f t = s :=
  tryPlayerMove_of_illegal E p now s f t hE

/-- Witness for C4 at a concrete input. -/
theorem C4_illegal_attempt_noop_witness :
    tryPlayerMove noneEngine firstPuzzle 3 (initialState firstPuzzle []) "e2" "e4"
      = initialState firstPuzzle [] :=
  C4_illegal_attempt_noop noneEngine firstPuzzle 3 (initialState firstPuzzle []) "e2" "e4" rfl

/-- C2: a legal move attempt in an active (not complete) state whose
normalized from+to string differs from the expected solution entry
increments the mistake count by exactly one, leaves the slot unchanged,
reverts the board to the pre-move encoding and resets the hint stage to 0. -/
theorem C2_wrong_move_counts_mistake {B : Type} (E : Engine B) (p : WeeklyPuzzle) (now : Nat)
    (s : SessionState B) (f t : String) (att : Attempted B)
    (hd : s.done = false)
    (hE : E s.game f t "q" = some att)
    (hne : lowerStr (att.fromSq ++ att.toSq) ≠ lowerStr (nextPlayerUci p s.playerMoveIndex)) :
    (tryPlayerMove E p now s f t).mistakes = s.mistakes + 1 ∧
    (tryPlayerMove E p now s f t).playerMoveIndex = s.playerMoveIndex ∧
    (tryPlayerMove E p now s f t).game = s.game ∧
    (tryPlayerMove E p now s f t).hintStage = 0 := by
  rw [tryPlayerMove_wrong E p now s f t att hd hE hne]
  exact ⟨rfl, rfl, rfl, rfl⟩

/-- Witness for C2 at a concrete input: playing a2a3 instead of c3d4. -/
theorem C2_wrong_move_counts_mistake_witness :
    (tryPlayerMove logEngine firstPuzzle 5 (initialState firstPuzzle []) "a2" "a3").mistakes = 1 ∧
    (tryPlayerMove logEngine firstPuzzle 5 (initialState firstPuzzle []) "a2" "a3").playerMoveIndex = 0 ∧
    (tryPlayerMove logEngine firstPuzzle 5 (initialState firstPuzzle []) "a2" "a3").game = [] ∧
    (tryPlayerMove logEngine firstPuzzle 5 (initialState firstPuzzle []) "a2" "a3").hintStage = 0 :=
  C2_wrong_move_counts_mistake logEngine firstPuzzle 5 (initialState firstPuzzle [])
    "a2" "a3" { fromSq := "a2", toSq := "a3", newBoard := ["a2a3q"] }
    rfl rfl (by decide)

/-- C3: a correct player move at slot n advances the slot to n+1 and leaves
the board as the player's applied move followed by the scripted opponent
reply at solution index (n+1)*2 - 1, applied unconditionally through
`applyOpponentMoveIfExists` (no validation against the expected line);
while n+1 < 5 the session is not complete; when n+1 = 5 the session becomes
complete, and with the 9-entry solution line no opponent reply exists, so
the board is exactly the player's applied move. -/
theorem C3_correct_move_advances {B : Type} (E : Engine B) (p : WeeklyPuzzle) (now : Nat)
    (s : SessionState B) (f t : String) (att : Attempted B)
    (hd : s.done = false)
    (hE : E s.game f t "q" = some att)
    (heq : lowerStr (att.fromSq ++ att.toSq) = lowerStr (nextPlayerUci p s.playerMoveIndex)) :
    (tryPlayerMove E p now s f t).playerMoveIndex = s.playerMoveIndex + 1 ∧
    (tryPlayerMove E p now s f t).game
      = applyOpponentMoveIfExists E p (s.playerMoveIndex + 1) att.newBoard ∧
    (s.playerMoveIndex + 1 < REQUIRED_PLAYER_MOVES → (tryPlayerMove E p now s f t).done = false) ∧
    (∀ u oppAtt, p.solution.getD ((s.playerMoveIndex + 1) * 2 - 1) "" = u → u ≠ "" →
        E att.newBoard (parseUci u).fromSq (parseUci u).toSq ((parseUci u).promotion.getD "q")
          = some oppAtt →
        (tryPlayerMove E p now s f t).game = oppAtt.newBoard) ∧
    (s.playerMoveIndex + 1 = REQUIRED_PLAYER_MOVES →
        (tryPlayerMove E p now s f t).done = true ∧
        (p.solution.length = 9 → (tryPlayerMove E p now s f t).game = att.newBoard)) := by
  rw [tryPlayerMove_right E p now s f t att hd hE heq]
  refine ⟨rfl, rfl, ?_, ?_, ?_⟩
  · intro h5
    simp only [decide_eq_false_iff_not]
    omega
  · intro u oppAtt hu hne hopp
    simp only [applyOpponentMoveIfExists]
    rw [hu, if_neg hne, hopp]
  · intro h5
    refine ⟨by rw [h5]; rfl, ?_⟩
    intro hlen
    have h9 : p.solution.getD (REQUIRED_PLAYER_MOVES * 2 - 1) "" = "" := by
      rw [List.getD_eq_getElem?_getD, List.getElem?_eq_none (by rw [hlen]; decide)]
      rfl
    rw [h5]
    simp only [applyOpponentMoveIfExists]
    rw [h9, if_pos rfl]

/-- Witness for C3 at a concrete input: playing c3d4 from the start. -/
theorem C3_correct_move_advances_witness :
    (tryPlayerMove logEngine firstPuzzle 7 (initialState firstPuzzle []) "c3" "d4").playerMoveIndex = 1 ∧
    (tryPlayerMove logEngine firstPuzzle 7 (initialState firstPuzzle []) "c3" "d4").done = false ∧
    (tryPlayerMove logEngine firstPuzzle 7 (initialState firstPuzzle []) "c3" "d4").game
      = ["c3d4q", "c5b4q"] :=
  have h := C3_correct_move_advances logEngine firstPuzzle 7 (initialState firstPuzzle [])
    "c3" "d4" { fromSq := "c3", toSq := "d4", newBoard := ["c3d4q"] } rfl rfl (by decide)
  ⟨h.1, h.2.2.1 (by decide),
   h.2.2.2.1 "c5b4" { fromSq := "c5", toSq := "b4", newBoard := ["c3d4q", "c5b4q"] }
     (by decide) (by decide) rfl⟩

/-- C10: once the session is complete every move attempt is a no-op (the
whole state, including board, slot, mistakes, hint stage, done flag and
timer-start timestamp, is unchanged), a hint request is also a no-op, and
only restart leaves the complete state, restoring the initial session state
(starting position, slot 0, zero mistakes, hint stage 0, timer cleared). -/
theorem C10_complete_is_absorbing {B : Type} (E : Engine B) (p : WeeklyPuzzle) (b : B)
    (s : SessionState B) (hd : s.done = true) :
    (∀ now f t, tryPlayerMove E p now s f t = s) ∧
    requestHint p s = s ∧
    restartPuzzle p b = initialState p b ∧
    (restartPuzzle p b).done = false ∧
    (restartPuzzle p b).playerMoveIndex = 0 ∧
    (restartPuzzle p b).mistakes = 0 ∧
    (restartPuzzle p b).hintStage = 0 ∧
    (restartPuzzle p b).startRef = none := by
  refine ⟨fun now f t => tryPlayerMove_of_done E p now s f t hd, ?_, rfl, rfl, rfl, rfl, rfl, rfl⟩
  unfold requestHint
  simp [hd]

/-- Witness for C10 at a concrete completed state. -/
theorem C10_complete_is_absorbing_witness :
    tryPlayerMove logEngine firstPuzzle 9
      { game := ["x"], selected := none, playerMoveIndex := 5, mistakes := 2,
        done := true, hintStage := 0, startRef := some 4, timeMs := 77 } "a2" "a3"
      = { game := ["x"], selected := none, playerMoveIndex := 5, mistakes := 2,
          done := true, hintStage := 0, startRef := some 4, timeMs := 77 } ∧
    requestHint firstPuzzle
      { game := (["x"] : List String), selected := none, playerMoveIndex := 5, mistakes := 2,
        done := true, hintStage := 0, startRef := some 4, timeMs := 77 }
      = { game := ["x"], selected := none, playerMoveIndex := 5, mistakes := 2,
          done := true, hintStage := 0, startRef := some 4, timeMs := 77 } ∧
    restartPuzzle firstPuzzle (["x"] : List String) = initialState firstPuzzle ["x"] :=
  ⟨(C10_complete_is_absorbing logEngine firstPuzzle ["x"]
      { game := ["x"], selected := none, playerMoveIndex := 5, mistakes := 2,
        done := true, hintStage := 0, startRef := some 4, timeMs := 77 } rfl).1 9 "a2" "a3",
   (C10_complete_is_absorbing logEngine firstPuzzle ["x"]
      { game := ["x"], selected := none, playerMoveIndex := 5, mistakes := 2,
        done := true, hintStage := 0, startRef := some 4, timeMs := 77 } rfl).2.1,
   (C10_complete_is_absorbing logEngine firstPuzzle ["x"]
      { game := ["x"], selected := none, playerMoveIndex := 5, mistakes := 2,
        done := true, hintStage := 0, startRef := some 4, timeMs := 77 } rfl).2.2.1⟩

/-- C5: the hint stage cycles 0 to 1 to 2 to 0 on repeated enabled hint
requests; requests are no-ops when the puzzle is complete or no hint
squares exist (no next expected move); and any legal move attempt in an
active state, correct or incorrect, resets the hint stage to 0. -/
theorem C5_hint_stage_cycles {B : Type} (p : WeeklyPuzzle) :
    (hintCycle 0 = 1 ∧ hintCycle 1 = 2 ∧ hintCycle 2 = 0) ∧
    (∀ s : SessionState B, s.done = false → (hintSquares p s).isNone = false →
        (requestHint p s).hintStage = hintCycle s.hintStage) ∧
    (∀ s : SessionState B, s.done = true → requestHint p s = s) ∧
    (∀ s : SessionState B, (hintSquares p s).isNone = true → requestHint p s = s) ∧
    (∀ (E : Engine B) (now : Nat) (s : SessionState B) (f t : String) (att : Attempted B),
        s.done = false → E s.game f t "q" = some att →
        (tryPlayerMove E p now s f t).hintStage = 0) := by
  refine ⟨⟨rfl, rfl, rfl⟩, ?_, ?_, ?_, ?_⟩
  · intro s hd hsq
    unfold requestHint
    rw [hd, hsq]
    rfl
  · intro s hd
    unfold requestHint
    rw [hd]
    rfl
  · intro s hsq
    unfold requestHint
    rw [hsq]
    split <;> rfl
  · intro E now s f t att hd hE
    by_cases hcmp : lowerStr (att.fromSq ++ att.toSq) = lowerStr (nextPlayerUci p s.playerMoveIndex)
    · rw [tryPlayerMove_right E p now s f t att hd hE hcmp]
    · rw [tryPlayerMove_wrong E p now s f t att hd hE hcmp]

/-- Witness for C5 at a concrete input: one enabled hint request from the
initial state, and the reset on a (wrong) legal move. -/
theorem C5_hint_stage_cycles_witness :
    (requestHint firstPuzzle (initialState firstPuzzle ([] : List String))).hintStage
      = hintCycle 0 ∧
    (tryPlayerMove logEngine firstPuzzle 5
      { initialState firstPuzzle ([] : List String) with hintStage := 2 }
      "a2" "a3").hintStage = 0 :=
  ⟨(C5_hint_stage_cycles firstPuzzle).2.1 (initialState firstPuzzle []) rfl (by decide),
   (C5_hint_stage_cycles firstPuzzle).2.2.2.2 logEngine 5
     { initialState firstPuzzle ([] : List String) with hintStage := 2 } "a2" "a3"
     { fromSq := "a2", toSq := "a3", newBoard := ["a2a3q"] } rfl rfl⟩

/-- C9: the timer-start timestamp is unset in the initial state, is set to
the current time exactly on the first legal move attempt of the session
(whether or not the move is correct), is never changed by any later move
attempt once set (to a real, nonzero timestamp), is untouched by illegal
attempts, and is cleared by restart. -/
theorem C9_timer_starts_once {B : Type} (p : WeeklyPuzzle) (b : B) :
    (initialState p b).startRef = none ∧
    (restartPuzzle p b).startRef = none ∧
    (∀ (E : Engine B) (now : Nat) (s : SessionState B) (f t : String),
        s.done = false → s.startRef = none → (∃ att, E s.game f t "q" = some att) →
        (tryPlayerMove E p now s f t).startRef = some now) ∧
    (∀ (E : Engine B) (now : Nat) (s : SessionState B) (f t : String) (ts : Nat),
        s.startRef = some ts → ts ≠ 0 →
        (tryPlayerMove E p now s f t).startRef = some ts) ∧
    (∀ (E : Engine B) (now : Nat) (s : SessionState B) (f t : String),
        E s.game f t "q" = none →
        (tryPlayerMove E p now s f t).startRef = s.startRef) := by
  refine ⟨rfl, rfl, ?_, ?_, ?_⟩
  · intro E now s f t hd hsr ⟨att, hE⟩
    by_cases hcmp : lowerStr (att.fromSq ++ att.toSq) = lowerStr (nextPlayerUci p s.playerMoveIndex)
    · rw [tryPlayerMove_right E p now s f t att hd hE hcmp]
      show startTimerIfNeeded now s.startRef = some now
      rw [hsr]
      rfl
    · rw [tryPlayerMove_wrong E p now s f t att hd hE hcmp]
      show startTimerIfNeeded now s.startRef = some now
      rw [hsr]
      rfl
  · intro E now s f t ts hsr hts
    by_cases hd : s.done = true
    · rw [tryPlayerMove_of_done E p now s f t hd, hsr]
    · rw [Bool.not_eq_true] at hd
      cases hE : E s.game f t "q" with
      | none => rw [tryPlayerMove_of_illegal E p now s f t hE, hsr]
      | some att =>
        have hset : startTimerIfNeeded now s.startRef = some ts := by
          rw [hsr]
          show (if ts = 0 then some now else some ts) = some ts
          rw [if_neg hts]
        by_cases hcmp : lowerStr (att.fromSq ++ att.toSq)
            = lowerStr (nextPlayerUci p s.playerMoveIndex)
        · rw [tryPlayerMove_right E p now s f t att hd hE hcmp]
          exact hset
        · rw [tryPlayerMove_wrong E p now s f t att hd hE hcmp]
          exact hset
  · intro E now s f t hE
    rw [tryPlayerMove_of_illegal E p now s f t hE]

/-- Witness for C9 at concrete inputs: legal first attempt sets the timer;
a second attempt keeps it; an illegal attempt leaves it unset. -/
theorem C9_timer_starts_once_witness :
    (initialState firstPuzzle ([] : List String)).startRef = none ∧
    (tryPlayerMove logEngine firstPuzzle 11
        (initialState firstPuzzle ([] : List String)) "a2" "a3").startRef = some 11 ∧
    (tryPlayerMove logEngine firstPuzzle 99
        { initialState firstPuzzle ([] : List String) with startRef := some 11 }
        "a2" "a3").startRef = some 11 ∧
    (tryPlayerMove noneEngine firstPuzzle 42
        (initialState firstPuzzle ([] : List String)) "a2" "a3").startRef = none :=
  ⟨(C9_timer_starts_once firstPuzzle ([] : List String)).1,
   (C9_timer_starts_once firstPuzzle ([] : List String)).2.2.1 logEngine 11
     (initialState firstPuzzle []) "a2" "a3" rfl rfl ⟨_, rfl⟩,
   (C9_timer_starts_once firstPuzzle ([] : List String)).2.2.2.1 logEngine 99
     { initialState firstPuzzle ([] : List String) with startRef := some 11 }
     "a2" "a3" 11 rfl (by decide),
   (C9_timer_starts_once firstPuzzle ([] : List String)).2.2.2.2 noneEngine 42
     (initialState firstPuzzle []) "a2" "a3" rfl⟩

/-- The hash accumulator stays below 2^32 whenever it starts below 2^32. -/
lemma hashFold_lt : ∀ (l : List Char) (h : Nat), h < 4294967296 →
    l.foldl (fun h c => (h * 31 + c.toNat) % 4294967296) h < 4294967296
  | [], _, hh => hh
  | _ :: cs, _, _ => hashFold_lt cs _ (Nat.mod_lt _ (by decide))

/-- The string hash is an unsigned 32-bit value. -/
lemma hashString_lt (s : String) : hashString s < 4294967296 :=
  hashFold_lt s.data 0 (by decide)

/-- C6: the weekly puzzle is selected as the catalog entry at index
hash(weekKey) mod catalogSize, where the hash iterates h := (h*31 +
charCode) wrapped modulo 2^32 starting from 0; the selection is
deterministic, two week keys in the same hash bucket select the identical
puzzle, and the index is always valid for the non-empty catalog. -/
theorem C6_weekly_pick_deterministic (k1 k2 : String)
    (hb : hashString k1 % PUZZLES.length = hashString k2 % PUZZLES.length) :
    pickWeeklyPuzzle k1 = pickWeeklyPuzzle k2 ∧
    hashString k1 < 4294967296 ∧
    hashString k1 % PUZZLES.length < PUZZLES.length ∧
    pickWeeklyPuzzle k1
      = PUZZLES.get ⟨hashString k1 % PUZZLES.length, Nat.mod_lt _ (by decide)⟩ := by
  refine ⟨?_, hashString_lt k1, Nat.mod_lt _ (by decide), rfl⟩
  unfold pickWeeklyPuzzle
  congr 1
  exact Fin.ext hb

/-- Witness for C6 at two concrete week keys. -/
theorem C6_weekly_pick_deterministic_witness :
    pickWeeklyPuzzle "2025-01-06" = pickWeeklyPuzzle "2025-01-13" ∧
    hashString "2025-01-06" < 4294967296 :=
  ⟨(C6_weekly_pick_deterministic "2025-01-06" "2025-01-13" (by decide)).1,
   (C6_weekly_pick_deterministic "2025-01-06" "2025-01-13" (by decide)).2.1⟩

/-- C7: a leaderboard write happens exactly when the session is complete
and the player name is non-empty after trimming; the inserted row carries
the trimmed name truncated to at most 24 characters, the week key, the
elapsed milliseconds and the mistake count. -/
theorem C7_leaderboard_write_gated {B : Type} (weekKey name : String) (s : SessionState B) :
    ((submitScore weekKey name s).isSome ↔ (s.done = true ∧ clampName name ≠ "")) ∧
    (clampName name = "" ↔ trimStr name = "") ∧
    (∀ row, submitScore weekKey name s = some row →
        row.week_key = weekKey ∧ row.name = clampName name ∧ row.name.length ≤ 24 ∧
        row.time_ms = s.timeMs ∧ row.mistakes = s.mistakes) := by
  refine ⟨?_, ?_, ?_⟩
  · cases hd : s.done <;> by_cases hn : clampName name = "" <;>
      simp [submitScore, hd, hn]
  · constructor
    · intro h
      have hdata : (trimStr name).data.take 24 = ([] : List Char) := congrArg String.data h
      have hnil : (trimStr name).data = [] := by
        rcases List.take_eq_nil_iff.mp hdata with h24 | hnil
        · exact absurd h24 (by decide)
        · exact hnil
      exact String.ext_iff.mpr hnil
    · intro h
      unfold clampName
      rw [h]
      rfl
  · intro row hrow
    simp only [submitScore] at hrow
    by_cases hd : s.done = false
    · rw [if_pos hd] at hrow
      cases hrow
    · rw [if_neg hd] at hrow
      by_cases hn : clampName name = ""
      · rw [if_pos hn] at hrow
        cases hrow
      · rw [if_neg hn] at hrow
        injection hrow with h2
        subst h2
        refine ⟨rfl, rfl, ?_, rfl, rfl⟩
        show (String.mk ((trimStr name).data.take 24)).length ≤ 24
        rw [String.length_mk, List.length_take]
        exact Nat.min_le_left _ _

/-- Witness for C7 at a concrete completed state with a padded name. -/
theorem C7_leaderboard_write_gated_witness :
    (submitScore "2025-01-06" "  khai  "
      { game := (["x"] : List String), selected := none, playerMoveIndex := 5, mistakes := 1,
        done := true, hintStage := 0, startRef := some 4, timeMs := 90000 }).isSome ∧
    (submitScore "2025-01-06" "  khai  "
      { game := (["x"] : List String), selected := none, playerMoveIndex := 5, mistakes := 1,
        done := true, hintStage := 0, startRef := some 4, timeMs := 90000 })
      = some { week_key := "2025-01-06", name := "khai", time_ms := 90000, mistakes := 1 } ∧
    (submitScore "2025-01-06" "   "
      { game := (["x"] : List String), selected := none, playerMoveIndex := 5, mistakes := 1,
        done := true, hintStage := 0, startRef := some 4, timeMs := 90000 }) = none :=
  ⟨((C7_leaderboard_write_gated "2025-01-06" "  khai  "
      { game := (["x"] : List String), selected := none, playerMoveIndex := 5, mistakes := 1,
        done := true, hintStage := 0, startRef := some 4, timeMs := 90000 }).1).mpr
      ⟨rfl, by decide⟩,
   by decide,
   by decide⟩

/-- The hint cycle output is always one of 0, 1, 2. -/
lemma hintCycle_le_two (n : Nat) : hintCycle n ≤ 2 := by
  unfold hintCycle
  split
  · omega
  · split <;> omega

/-- A move attempt preserves the session invariant. -/
lemma tryPlayerMove_inv {B : Type} (E : Engine B) (p : WeeklyPuzzle) (now : Nat)
    (s : SessionState B) (f t : String) (h : SessionInv s) :
    SessionInv (tryPlayerMove E p now s f t) := by
  by_cases hd : s.done = true
  · rw [tryPlayerMove_of_done E p now s f t hd]
    exact h
  · rw [Bool.not_eq_true] at hd
    cases hE : E s.game f t "q" with
    | none =>
      rw [tryPlayerMove_of_illegal E p now s f t hE]
      exact h
    | some att =>
      by_cases hcmp : lowerStr (att.fromSq ++ att.toSq)
          = lowerStr (nextPlayerUci p s.playerMoveIndex)
      · rw [tryPlayerMove_right E p now s f t att hd hE hcmp]
        refine ⟨?_, Nat.zero_le _⟩
        intro hdone
        have hd' : decide (s.playerMoveIndex + 1 ≥ REQUIRED_PLAYER_MOVES) = false := hdone
        show s.playerMoveIndex + 1 < REQUIRED_PLAYER_MOVES
        exact Nat.lt_of_not_le (of_decide_eq_false hd')
      · rw [tryPlayerMove_wrong E p now s f t att hd hE hcmp]
        exact ⟨fun _ => h.1 hd, Nat.zero_le _⟩

/-- A hint request preserves the session invariant. -/
lemma requestHint_inv {B : Type} (p : WeeklyPuzzle) (s : SessionState B)
    (h : SessionInv s) : SessionInv (requestHint p s) := by
  unfold requestHint
  split
  · exact h
  · split
    · exact h
    · exact ⟨h.1, hintCycle_le_two s.hintStage⟩

/-- Every reachable session state satisfies the session invariant. -/
lemma reachable_inv {B : Type} (E : Engine B) (p : WeeklyPuzzle) (b : B)
    (s : SessionState B) (hr : Reachable E p b s) : SessionInv s := by
  induction hr with
  | init =>
    exact ⟨fun _ => by show (0 : Nat) < REQUIRED_PLAYER_MOVES; decide, Nat.zero_le _⟩
  | move s now f t _ ih => exact tryPlayerMove_inv E p now s f t ih
  | hint s _ ih => exact requestHint_inv p s ih
  | restart s _ _ =>
    exact ⟨fun _ => by show (0 : Nat) < REQUIRED_PLAYER_MOVES; decide, Nat.zero_le _⟩

/-- C8: in every session state reachable from the initial state by move
attempts, hint requests and restarts, either the session is complete or the
next player slot lies in 0..4, and the hint stage always lies in 0..2. -/
theorem C8_reachable_slot_and_hint_ranges {B : Type} (E : Engine B) (p : WeeklyPuzzle)
    (b : B) (s : SessionState B) (hr : Reachable E p b s) :
    (s.done = true ∨ s.playerMoveIndex ≤ 4) ∧ s.hintStage ≤ 2 := by
  obtain ⟨h1, h2⟩ := reachable_inv E p b s hr
  refine ⟨?_, h2⟩
  cases hd : s.done with
  | true => exact Or.inl rfl
  | false =>
    have := h1 hd
    right
    unfold REQUIRED_PLAYER_MOVES at this
    omega

/-- Witness for C8 at a concrete reachable state (one wrong move played). -/
theorem C8_reachable_slot_and_hint_ranges_witness :
    ((tryPlayerMove logEngine firstPuzzle 5 (initialState firstPuzzle []) "a2" "a3").done = true ∨
      (tryPlayerMove logEngine firstPuzzle 5 (initialState firstPuzzle []) "a2" "a3").playerMoveIndex ≤ 4) ∧
    (tryPlayerMove logEngine firstPuzzle 5 (initialState firstPuzzle []) "a2" "a3").hintStage ≤ 2 :=
  C8_reachable_slot_and_hint_ranges logEngine firstPuzzle []
    (tryPlayerMove logEngine firstPuzzle 5 (initialState firstPuzzle []) "a2" "a3")
    (Reachable.move (initialState firstPuzzle []) 5 "a2" "a3" Reachable.init)

/-- One correct replay step: when the state at step i is active with slot i
and the expected move is legal there (with the engine reporting back the
requested squares), the step advances the slot, completes exactly at slot
5 and adds no mistake. -/
lemma replay_step {B : Type} (E : Engine B) (p : WeeklyPuzzle) (now : Nat) (b : B) (i : Nat)
    (hrep : ∀ g f t pr att, E g f t pr = some att → att.fromSq = f ∧ att.toSq = t)
    (hdone : (replayMoves E p now b i).done = false)
    (hpmi : (replayMoves E p now b i).playerMoveIndex = i)
    (hleg : ∃ att, E (replayMoves E p now b i).game (expectedFrom p i) (expectedTo p i) "q"
        = some att)
    (hstr : lowerStr (expectedFrom p i ++ expectedTo p i) = lowerStr (nextPlayerUci p i)) :
    (replayMoves E p now b (i + 1)).done = decide (i + 1 ≥ REQUIRED_PLAYER_MOVES) ∧
    (replayMoves E p now b (i + 1)).playerMoveIndex = i + 1 ∧
    (replayMoves E p now b (i + 1)).mistakes = (replayMoves E p now b i).mistakes := by
  obtain ⟨att, hE⟩ := hleg
  obtain ⟨hf, ht⟩ := hrep _ _ _ _ _ hE
  have heq : lowerStr (att.fromSq ++ att.toSq)
      = lowerStr (nextPlayerUci p (replayMoves E p now b i).playerMoveIndex) := by
    rw [hf, ht, hpmi, hstr]
  have hstep : replayMoves E p now b (i + 1)
      = tryPlayerMove E p now (replayMoves E p now b i) (expectedFrom p i) (expectedTo p i) :=
    rfl
  rw [hstep, tryPlayerMove_right E p now (replayMoves E p now b i)
    (expectedFrom p i) (expectedTo p i) att hdone hE heq]
  refine ⟨?_, ?_, rfl⟩
  · show decide ((replayMoves E p now b i).playerMoveIndex + 1 ≥ REQUIRED_PLAYER_MOVES)
        = decide (i + 1 ≥ REQUIRED_PLAYER_MOVES)
    rw [hpmi]
  · show (replayMoves E p now b i).playerMoveIndex + 1 = i + 1
    rw [hpmi]

/-- C1: for every puzzle in the catalog, replaying exactly the five player
half-moves solution[0], solution[2], solution[4], solution[6], solution[8]
in order from the initial state, each legal in its position (through a
rules adapter that reports back the requested squares), ends the session
Complete with zero mistakes. -/
theorem C1_replay_solution_completes {B : Type} (E : Engine B) (p : WeeklyPuzzle)
    (now : Nat) (b : B)
    (hp : p ∈ PUZZLES)
    (hrep : ∀ g f t pr att, E g f t pr = some att → att.fromSq = f ∧ att.toSq = t)
    (hleg : ∀ i, i < REQUIRED_PLAYER_MOVES →
        ∃ att, E (replayMoves E p now b i).game (expectedFrom p i) (expectedTo p i) "q"
          = some att) :
    (replayMoves E p now b REQUIRED_PLAYER_MOVES).done = true ∧
    (replayMoves E p now b REQUIRED_PLAYER_MOVES).mistakes = 0 := by
  have hp1 : p = firstPuzzle := by
    simp only [PUZZLES, List.mem_singleton] at hp
    exact hp
  subst hp1
  have st0 := replay_step E firstPuzzle now b 0 hrep rfl rfl (hleg 0 (by decide)) (by decide)
  have h1d : (replayMoves E firstPuzzle now b 1).done = false := by rw [st0.1]; decide
  have st1 := replay_step E firstPuzzle now b 1 hrep h1d st0.2.1 (hleg 1 (by decide)) (by decide)
  have h2d : (replayMoves E firstPuzzle now b 2).done = false := by rw [st1.1]; decide
  have st2 := replay_step E firstPuzzle now b 2 hrep h2d st1.2.1 (hleg 2 (by decide)) (by decide)
  have h3d : (replayMoves E firstPuzzle now b 3).done = false := by rw [st2.1]; decide
  have st3 := replay_step E firstPuzzle now b 3 hrep h3d st2.2.1 (hleg 3 (by decide)) (by decide)
  have h4d : (replayMoves E firstPuzzle now b 4).done = false := by rw [st3.1]; decide
  have st4 := replay_step E firstPuzzle now b 4 hrep h4d st3.2.1 (hleg 4 (by decide)) (by decide)
  constructor
  · show (replayMoves E firstPuzzle now b (4 + 1)).done = true
    rw [st4.1]
    decide
  · show (replayMoves E firstPuzzle now b (4 + 1)).mistakes = 0
    rw [st4.2.2, st3.2.2, st2.2.2, st1.2.2, st0.2.2]
    rfl

/-- Witness for C1: the full replay on the log adapter, on which every move
is legal. -/
theorem C1_replay_solution_completes_witness :
    (replayMoves logEngine firstPuzzle 7 [] REQUIRED_PLAYER_MOVES).done = true ∧
    (replayMoves logEngine firstPuzzle 7 [] REQUIRED_PLAYER_MOVES).mistakes = 0 :=
  C1_replay_solution_completes logEngine firstPuzzle 7 []
    (by simp [PUZZLES])
    (by intro g f t pr att h
        injection h with h2
        subst h2
        exact ⟨rfl, rfl⟩)
    (fun i _ => ⟨_, rfl⟩)

end KhaiChess
